import Mathlib

/-!
Shallow embedding of `react_extractor/extractor.py` (ReACT-API).

The program reads a metrics table (pandas DataFrame from a CSV) and a JSON
collection of entries, computes per-feature differences between a 3-month
window sum and the all-rows mean, filters entries whose `Features` tokens
meet a triggered feature, and sorts the kept entries by `Importance`
descending (Python's `sorted` with `reverse=True`, a stable sort).

Modelling choices:
* numeric cell values are rationals (`ℚ`), standing in for the exact
  arithmetic the claims are about;
* a DataFrame is a list of column names plus a list of rows, a row being a
  total valuation `String → ℚ` (only the named columns are meaningful);
  a pandas `KeyError` on column access is modelled by `Option`;
* a Python `dict` is an insertion-ordered association list: setting an
  existing key updates it in place, a new key is appended;
* Python's stable sort is modelled by a stable insertion sort, which
  satisfies the same specification (a permutation that is sorted by the key
  and keeps the original relative order of equal keys).
-/

abbrev Row := String → ℚ

structure DataFrame where
  cols : List String
  rows : List Row

/-- Column presence test: `c` is a column of the frame. -/
def DataFrame.hasCol (df : DataFrame) (c : String) : Bool :=
  df.cols.contains c

/-- The values of column `c`, one per row (meaningful when `hasCol` holds). -/
def DataFrame.colVals (df : DataFrame) (c : String) : List ℚ :=
  df.rows.map (fun r => r c)

/-- `pandas.Series.mean`: sum of the values divided by their count. -/
def seriesMean (l : List ℚ) : ℚ :=
  l.sum / (l.length : ℚ)

/-- The all-rows mean of column `c` (`df[c].mean()`). -/
def DataFrame.meanOf (df : DataFrame) (c : String) : ℚ :=
  seriesMean (df.colVals c)

/-- The row mask `(df['month'] >= month_n-2) & (df['month'] <= month_n)`. -/
def inWindow (month_n : Int) (r : Row) : Bool :=
  decide (((month_n - 2 : Int) : ℚ) ≤ r "month") && decide (r "month" ≤ ((month_n : Int) : ℚ))

/-- The rows whose `month` lies in `[month_n-2, month_n]`. -/
def DataFrame.windowRows (df : DataFrame) (month_n : Int) : List Row :=
  df.rows.filter (inWindow month_n)

/-- `df[(df['month'] >= month_n-2) & (df['month'] <= month_n)][c].sum()`. -/
def DataFrame.windowSum (df : DataFrame) (month_n : Int) (c : String) : ℚ :=
  ((df.windowRows month_n).map (fun r => r c)).sum

/-- A Python `dict` with keys of type `κ`: an association list in insertion
order.  Only used through `Dict.set` / `Dict.getD` / `Dict.keys`. -/
abbrev Dict (κ α : Type) : Type := List (κ × α)

namespace Dict

variable {κ α : Type} [DecidableEq κ]

/-- `d[k] = v`: update in place when the key is present, append otherwise. -/
def set (d : Dict κ α) (k : κ) (v : α) : Dict κ α :=
  if d.any (fun p => p.1 = k) then
    d.map (fun p => if p.1 = k then (k, v) else p)
  else
    d ++ [(k, v)]

/-- `d.get(k)`: the value at the first matching key. -/
def get? (d : Dict κ α) (k : κ) : Option α :=
  (d.find? (fun p => decide (p.1 = k))).map (fun p => p.2)

/-- `d[k]` where the key is known to be present; defaults otherwise. -/
def getD (d : Dict κ α) (k : κ) (v₀ : α) : α :=
  (d.get? k).getD v₀

/-- The keys of the dictionary, in insertion order. -/
def keys (d : Dict κ α) : List κ :=
  d.map (fun p => p.1)

end Dict

/-- First loop of `calculate_feature_differences`: for each feature,
`avg_feature_values[feature] = df[feature].mean()`; a missing column is a
`KeyError` (`none`). -/
def buildAvg (df : DataFrame) : List String → Dict String ℚ → Option (Dict String ℚ)
  | [], d => some d
  | f :: rest, d =>
    if df.hasCol f then
      buildAvg df rest (d.set f (df.meanOf f))
    else
      none

/-- Second loop of `calculate_feature_differences`: for each feature,
`monthly_feature_values[feature] = df[window][feature].sum()`; accessing
`df['month']` (for the mask) or the feature column raises `KeyError`. -/
def buildMonthly (df : DataFrame) (month_n : Int) :
    List String → Dict String ℚ → Option (Dict String ℚ)
  | [], d => some d
  | f :: rest, d =>
    if df.hasCol "month" then
      if df.hasCol f then
        buildMonthly df month_n rest (d.set f (df.windowSum month_n f))
      else
        none
    else
      none

/-- Third loop: `differences[feature] = monthly[feature] - avg[feature]`
(both keys are always present when the loops above succeeded, so the
default value of the lookup is never exercised). -/
def buildDiffs (mon avg : Dict String ℚ) : List String → Dict String ℚ → Dict String ℚ
  | [], d => d
  | f :: rest, d => buildDiffs mon avg rest (d.set f (mon.getD f 0 - avg.getD f 0))

/-- `calculate_feature_differences(df, month_n, feature_list)`: the features
whose window-sum-minus-mean difference is `<= 0`, in the insertion order of
the `differences` dict; `none` models an uncaught `KeyError`. -/
def calculate_feature_differences (df : DataFrame) (month_n : Int)
    (feature_list : List String) : Option (List String) := do
  let avg ← buildAvg df feature_list []
  let mon ← buildMonthly df month_n feature_list []
  let diffs := buildDiffs mon avg feature_list []
  some ((diffs.filter (fun p => decide (p.2 ≤ 0))).map (fun p => p.1))

/-- A reference entry (a JSON record), relied upon only for the optional
`Features` string and the optional numeric `Importance`. -/
structure Entry where
  features? : Option String
  importance? : Option ℚ
deriving DecidableEq

/-- `entry.get("Features", "")`. -/
def Entry.featuresStr (e : Entry) : String :=
  e.features?.getD ""

/-- Python `str.strip()` on a character list: drop leading and trailing
whitespace (structural recursion, unlike `String.trim`, so that concrete
witnesses evaluate inside the kernel). -/
def pyStripList (cs : List Char) : List Char :=
  ((cs.dropWhile Char.isWhitespace).reverse.dropWhile Char.isWhitespace).reverse

/-- Python `str.strip()`. -/
def pyStrip (s : String) : String :=
  ⟨pyStripList s.data⟩

/-- Python `str.split(",")`, accumulating the current token in reverse:
`"".split(",") == [""]`, `"a,".split(",") == ["a", ""]`. -/
def splitCommaAux : List Char → List Char → List String
  | [], acc => [⟨acc.reverse⟩]
  | c :: cs, acc =>
    if c = ',' then ⟨acc.reverse⟩ :: splitCommaAux cs [] else splitCommaAux cs (c :: acc)

/-- Python `s.split(",")`. -/
def pySplitComma (s : String) : List String :=
  splitCommaAux s.data []

/-- `set(map(str.strip, entry.get("Features", "").split(",")))` — the comma
split of the (possibly defaulted) `Features` string, each token stripped. -/
def Entry.featureTokens (e : Entry) : List String :=
  (pySplitComma e.featuresStr).map pyStrip

/-- `entry.get("Importance", 0)`. -/
def Entry.importance (e : Entry) : ℚ :=
  e.importance?.getD 0

/-- `filter_json_by_features(data, features)`: keep an entry iff some
requested feature is a member of its token set. -/
def filter_json_by_features (data : List Entry) (features : List String) : List Entry :=
  data.filter (fun e => features.any (fun f => (e.featureTokens).contains f))

/-- Stable insertion step: `a` is placed after exactly those earlier
elements that must strictly precede it under `before`. -/
def insertStable {α : Type} (before : α → α → Bool) (a : α) : List α → List α
  | [] => [a]
  | b :: l => if before b a then b :: insertStable before a l else a :: b :: l

/-- A stable sort: the unique permutation that is sorted by the key order
and keeps the original relative order of elements the order ties.  Python's
`sorted` is specified to be exactly such a sort. -/
def stableSortBy {α : Type} (before : α → α → Bool) : List α → List α
  | [] => []
  | a :: l => insertStable before a (stableSortBy before l)

/-- `sorted(entries, key=lambda x: x.get("Importance", 0), reverse=True)`:
stable sort, descending by importance (an element stays before a later one
unless its importance is strictly smaller). -/
def sortByImportanceDesc (l : List Entry) : List Entry :=
  stableSortBy (fun b a => a.importance < b.importance) l

/-- The hard-coded `feature_list` of `ReACT_Extractor`. -/
def feature_list : List String :=
  [ "s_avg_clustering_coef"
  , "t_num_dev_nodes"
  , "t_num_dev_per_file"
  , "t_graph_density"
  , "st_num_dev"
  , "t_net_overlap" ]

/-- `ReACT_Extractor(original_data, feature_data, month_n)`, the returned
value (the optional file write is I/O and does not affect it). -/
def ReACT_Extractor (original_data : List Entry) (feature_data : DataFrame)
    (month_n : Int) : Option (List Entry) := do
  let processed_features ← calculate_feature_differences feature_data month_n feature_list
  let filtered_json := filter_json_by_features original_data processed_features
  some (sortByImportanceDesc filtered_json)

/-- Python's `int()` on a number: truncation toward zero. -/
def pyInt (q : ℚ) : Int :=
  if 0 ≤ q then ⌊q⌋ else ⌈q⌉

/-- `sorted(feature_data['month'].unique())`: the distinct values of the
`month` column, ascending.  (`unique` keeps first occurrences and `sorted`
is stable, so the result is the ascending list of the distinct values;
`dedup`-then-sort produces that same list.) -/
def DataFrame.monthsSortedUnique (df : DataFrame) : List ℚ :=
  stableSortBy (fun b a => decide (b < a)) ((df.rows.map (fun r => r "month")).dedup)

/-- The `--all` loop body of `main`: fold over the months, recording
`all_results[int(m)] = ReACT_Extractor(..., month_n=int(m), write_output=False)`. -/
def allMonthsLoop (original_data : List Entry) (feature_data : DataFrame) :
    List ℚ → Dict Int (List Entry) → Option (Dict Int (List Entry))
  | [], acc => some acc
  | m :: rest, acc =>
    match ReACT_Extractor original_data feature_data (pyInt m) with
    | none => none
    | some res => allMonthsLoop original_data feature_data rest (acc.set (pyInt m) res)

/-- The `--all` mode of `main`: iterate the distinct months ascending and
assemble the month-to-result mapping (accessing `feature_data['month']`
first, which raises `KeyError` when the column is absent). -/
def allMonthsResults (original_data : List Entry) (feature_data : DataFrame) :
    Option (Dict Int (List Entry)) :=
  if feature_data.hasCol "month" then
    allMonthsLoop original_data feature_data feature_data.monthsSortedUnique []
  else
    none

/-- Record each key of the list to the given value function, in order; the
common shape of the three dict-building loops once all lookups succeed. -/
def setAll {κ α : Type} [DecidableEq κ] (val : κ → α) : List κ → Dict κ α → Dict κ α
  | [], d => d
  | k :: ks, d => setAll val ks (d.set k (val k))

/-- Every stored value agrees with the value function at its key. -/
def Dict.Consistent {κ α : Type} (val : κ → α) (d : Dict κ α) : Prop :=
  ∀ p ∈ d, p.2 = val p.1

/-- Modelled from the spec/claim words, for refutation comparison only: "an
entry with no `Features` key is treated as having an empty feature set"
(the code instead defaults the string to `""`, whose comma split is the
singleton list containing the empty token). -/
def specFeatureTokens (e : Entry) : List String :=
  match e.features? with
  | none => []
  | some s => (pySplitComma s).map pyStrip

/-- Concrete test table: one row, month 9, every tracked feature 5 (the
spec's own worked example has this shape: difference 0, all features
trigger). -/
def dfOne : DataFrame :=
  ⟨"month" :: feature_list, [fun c => if c = "month" then 9 else 5]⟩

/-- Concrete test table: three rows, months 1, 2, 3, every tracked feature
1; at month 3 each difference is 3 - 1 = 2 > 0. -/
def dfPos : DataFrame :=
  ⟨"month" :: feature_list,
   [fun c => if c = "month" then 1 else 1,
    fun c => if c = "month" then 2 else 1,
    fun c => if c = "month" then 3 else 1]⟩

/-- Concrete test table: one row whose every cell (month included) is 5;
at month 3 the window [1, 3] is empty while every feature mean is 5. -/
def dfFar : DataFrame :=
  ⟨"month" :: feature_list, [fun _ => 5]⟩

/-- Concrete test table: one row whose every cell (month included) is -1;
at month 3 the window [1, 3] is empty, each feature mean is -1, so each
difference is 0 - (-1) = 1 > 0. -/
def dfNeg : DataFrame :=
  ⟨"month" :: feature_list, [fun _ => -1]⟩

/-- Concrete test table for all-months mode: one row whose every cell is 9
(so the single distinct month is 9 and every difference is 0). -/
def dfAll : DataFrame :=
  ⟨"month" :: feature_list, [fun _ => 9]⟩

/-- The rows of `dfPos` with the first two swapped, for the
row-permutation claim. -/
def dfPosSwapped : DataFrame :=
  ⟨dfPos.cols,
   [fun c => if c = "month" then 2 else 1,
    fun c => if c = "month" then 1 else 1,
    fun c => if c = "month" then 3 else 1]⟩

/-- Concrete test entries with mixed importances and tags. -/
def eTagged : Entry := ⟨some " t_graph_density , other", some 3⟩

/-- Entry with no `Features` key and no `Importance` key. -/
def eBare : Entry := ⟨none, none⟩

/-- Entry tagged with a tracked feature, importance 7. -/
def eTop : Entry := ⟨some "st_num_dev", some 7⟩

/-- Entry tagged with a tracked feature, importance 3 (ties `eTagged`). -/
def eTie : Entry := ⟨some "t_num_dev_nodes", some 3⟩

/-- Concrete reference collection for the sorting/filtering witnesses. -/
def orig0 : List Entry := [eTagged, eBare, eTop, eTie]


/-! ## Dictionary lemmas -/

section DictLemmas

variable {κ α : Type} [DecidableEq κ]

theorem Dict.mem_keys {d : Dict κ α} {k : κ} : k ∈ d.keys ↔ ∃ v, (k, v) ∈ d := by
  constructor
  · intro h
    rcases List.mem_map.1 h with ⟨p, hp, rfl⟩
    exact ⟨p.2, hp⟩
  · rintro ⟨v, hv⟩
    exact List.mem_map.2 ⟨(k, v), hv, rfl⟩

theorem Dict.any_key_eq {d : Dict κ α} {k : κ} :
    d.any (fun p => p.1 = k) = true ↔ k ∈ d.keys := by
  rw [List.any_eq_true]
  constructor
  · rintro ⟨p, hp, he⟩
    have hk : p.1 = k := of_decide_eq_true he
    subst hk
    exact Dict.mem_keys.2 ⟨p.2, by simpa using hp⟩
  · intro h
    rcases Dict.mem_keys.1 h with ⟨v, hv⟩
    exact ⟨(k, v), hv, by simp⟩

theorem Dict.mem_set {d : Dict κ α} {k : κ} {v : α} {p : κ × α} (h : p ∈ d.set k v) :
    p ∈ d ∨ p = (k, v) := by
  unfold Dict.set at h
  split at h
  · rcases List.mem_map.1 h with ⟨q, hq, rfl⟩
    split
    · exact Or.inr rfl
    · exact Or.inl hq
  · rcases List.mem_append.1 h with hq | hq
    · exact Or.inl hq
    · exact Or.inr (List.mem_singleton.1 hq)

theorem Dict.keys_set_of_mem {d : Dict κ α} {k : κ} (v : α) (h : k ∈ d.keys) :
    (d.set k v).keys = d.keys := by
  unfold Dict.set
  rw [if_pos (Dict.any_key_eq.2 h)]
  unfold Dict.keys
  rw [List.map_map]
  apply List.map_congr_left
  intro p _
  by_cases hp : p.1 = k
  · simp [hp]
  · simp [hp]

theorem Dict.keys_set_of_not_mem {d : Dict κ α} {k : κ} (v : α) (h : k ∉ d.keys) :
    (d.set k v).keys = d.keys ++ [k] := by
  unfold Dict.set
  rw [if_neg (fun hc => h (Dict.any_key_eq.1 hc))]
  unfold Dict.keys
  simp

theorem Dict.mem_keys_set {d : Dict κ α} {k : κ} {v : α} {x : κ} :
    x ∈ (d.set k v).keys ↔ x ∈ d.keys ∨ x = k := by
  by_cases h : k ∈ d.keys
  · rw [Dict.keys_set_of_mem v h]
    constructor
    · exact Or.inl
    · rintro (hx | rfl)
      · exact hx
      · exact h
  · rw [Dict.keys_set_of_not_mem v h]
    simp

theorem Dict.consistent_nil {val : κ → α} : Dict.Consistent val ([] : Dict κ α) := by
  intro p hp
  cases hp

theorem Dict.consistent_set {val : κ → α} {d : Dict κ α} {k : κ}
    (h : Dict.Consistent val d) : Dict.Consistent val (d.set k (val k)) := by
  intro p hp
  rcases Dict.mem_set hp with hp | rfl
  · exact h p hp
  · rfl

theorem Dict.getD_consistent {val : κ → α} {d : Dict κ α} {k : κ} {v₀ : α}
    (h : Dict.Consistent val d) (hk : k ∈ d.keys) : d.getD k v₀ = val k := by
  rcases Dict.mem_keys.1 hk with ⟨v, hv⟩
  have hsome : (d.find? (fun p => decide (p.1 = k))).isSome := by
    rw [List.find?_isSome]
    exact ⟨(k, v), hv, by simp⟩
  rcases Option.isSome_iff_exists.1 hsome with ⟨q, hq⟩
  have hqt := List.find?_some hq
  have hqk : q.1 = k := by simpa using hqt
  have hqd : q ∈ d := List.mem_of_find?_eq_some hq
  unfold Dict.getD Dict.get?
  rw [hq]
  simp [h q hqd, hqk]

theorem consistent_setAll {val : κ → α} {ks : List κ} :
    ∀ {d : Dict κ α}, Dict.Consistent val d → Dict.Consistent val (setAll val ks d) := by
  induction ks with
  | nil => intro d h; exact h
  | cons k ks ih => intro d h; exact ih (Dict.consistent_set h)

theorem mem_keys_setAll {val : κ → α} {ks : List κ} {x : κ} :
    ∀ {d : Dict κ α}, x ∈ (setAll val ks d).keys ↔ x ∈ d.keys ∨ x ∈ ks := by
  induction ks with
  | nil => intro d; simp [setAll]
  | cons k ks ih =>
    intro d
    rw [setAll, ih, Dict.mem_keys_set]
    constructor
    · rintro ((hx | rfl) | hx)
      · exact Or.inl hx
      · exact Or.inr (List.mem_cons_self _ _)
      · exact Or.inr (List.mem_cons_of_mem _ hx)
    · rintro (hx | hx)
      · exact Or.inl (Or.inl hx)
      · rcases List.mem_cons.1 hx with rfl | hx
        · exact Or.inl (Or.inr rfl)
        · exact Or.inr hx

end DictLemmas

/-! ## Evaluator-loop lemmas -/

theorem buildAvg_eq {df : DataFrame} {fl : List String}
    (h : ∀ f ∈ fl, df.hasCol f = true) :
    ∀ d, buildAvg df fl d = some (setAll df.meanOf fl d) := by
  induction fl with
  | nil => intro d; rfl
  | cons f rest ih =>
    intro d
    rw [buildAvg, if_pos (h f (List.mem_cons_self _ _)), setAll]
    exact ih (fun g hg => h g (List.mem_cons_of_mem _ hg)) _

theorem buildMonthly_eq {df : DataFrame} {m : Int} {fl : List String}
    (hm : df.hasCol "month" = true) (h : ∀ f ∈ fl, df.hasCol f = true) :
    ∀ d, buildMonthly df m fl d = some (setAll (df.windowSum m) fl d) := by
  induction fl with
  | nil => intro d; rfl
  | cons f rest ih =>
    intro d
    rw [buildMonthly, if_pos hm, if_pos (h f (List.mem_cons_self _ _)), setAll]
    exact ih (fun g hg => h g (List.mem_cons_of_mem _ hg)) _

theorem buildDiffs_eq {mon avg : Dict String ℚ} {fl : List String} :
    ∀ d, buildDiffs mon avg fl d = setAll (fun f => mon.getD f 0 - avg.getD f 0) fl d := by
  induction fl with
  | nil => intro d; rfl
  | cons f rest ih =>
    intro d
    rw [buildDiffs, setAll]
    exact ih _

theorem buildAvg_isSome {df : DataFrame} {fl : List String} :
    ∀ d, (buildAvg df fl d).isSome = fl.all df.hasCol := by
  induction fl with
  | nil => intro d; rfl
  | cons f rest ih =>
    intro d
    rw [buildAvg, List.all_cons]
    by_cases hf : df.hasCol f = true
    · rw [if_pos hf, hf, ih]
      simp
    · rw [if_neg hf, Bool.eq_false_iff.2 hf]
      simp

theorem buildMonthly_isSome {df : DataFrame} {m : Int} {fl : List String} :
    ∀ d, (buildMonthly df m fl d).isSome =
      (fl.isEmpty || (df.hasCol "month" && fl.all df.hasCol)) := by
  induction fl with
  | nil => intro d; rfl
  | cons f rest ih =>
    intro d
    rw [buildMonthly, List.all_cons]
    by_cases hm : df.hasCol "month" = true
    · by_cases hf : df.hasCol f = true
      · rw [if_pos hm, if_pos hf, ih, hm, hf]
        cases hrest : rest.all df.hasCol <;> cases hre : rest.isEmpty <;>
          simp_all [List.isEmpty_iff]
      · rw [if_pos hm, if_neg hf, Bool.eq_false_iff.2 hf]
        simp
    · rw [if_neg hm, Bool.eq_false_iff.2 hm]
      simp

/-- The value the `differences` dict records for each feature. -/
def diffVal (df : DataFrame) (m : Int) (fl : List String) (f : String) : ℚ :=
  (setAll (df.windowSum m) fl ([] : Dict String ℚ)).getD f 0 -
    (setAll df.meanOf fl ([] : Dict String ℚ)).getD f 0

theorem diffVal_eq {df : DataFrame} {m : Int} {fl : List String} {f : String}
    (hf : f ∈ fl) : diffVal df m fl f = df.windowSum m f - df.meanOf f := by
  unfold diffVal
  have hkeys : f ∈ (setAll (df.windowSum m) fl ([] : Dict String ℚ)).keys :=
    mem_keys_setAll.2 (Or.inr hf)
  have hkeys' : f ∈ (setAll df.meanOf fl ([] : Dict String ℚ)).keys :=
    mem_keys_setAll.2 (Or.inr hf)
  rw [Dict.getD_consistent (consistent_setAll Dict.consistent_nil) hkeys,
    Dict.getD_consistent (consistent_setAll Dict.consistent_nil) hkeys']

theorem calc_eq {df : DataFrame} {m : Int} {fl : List String}
    (hm : df.hasCol "month" = true) (hf : ∀ f ∈ fl, df.hasCol f = true) :
    calculate_feature_differences df m fl =
      some (((setAll (diffVal df m fl) fl ([] : Dict String ℚ)).filter
        (fun p => decide (p.2 ≤ 0))).map (fun p => p.1)) := by
  unfold calculate_feature_differences
  rw [buildAvg_eq hf, buildMonthly_eq hm hf]
  show some _ = some _
  rw [buildDiffs_eq]
  rfl

theorem calc_mem_iff {df : DataFrame} {m : Int} {fl : List String} {r : List String}
    (hm : df.hasCol "month" = true) (hf : ∀ f ∈ fl, df.hasCol f = true)
    (h : calculate_feature_differences df m fl = some r) :
    ∀ f, f ∈ r ↔ f ∈ fl ∧ df.windowSum m f - df.meanOf f ≤ 0 := by
  intro f
  rw [calc_eq hm hf] at h
  have hr := Option.some_injective _ h.symm
  subst hr
  have hcons : Dict.Consistent (diffVal df m fl)
      (setAll (diffVal df m fl) fl ([] : Dict String ℚ)) :=
    consistent_setAll Dict.consistent_nil
  constructor
  · intro hmem
    rcases List.mem_map.1 hmem with ⟨p, hp, rfl⟩
    rcases List.mem_filter.1 hp with ⟨hpd, hple⟩
    have hfl : p.1 ∈ fl := by
      have : p.1 ∈ (setAll (diffVal df m fl) fl ([] : Dict String ℚ)).keys :=
        List.mem_map.2 ⟨p, hpd, rfl⟩
      rcases mem_keys_setAll.1 this with hc | hc
      · cases hc
      · exact hc
    refine ⟨hfl, ?_⟩
    have hv : p.2 = diffVal df m fl p.1 := hcons p hpd
    rw [← diffVal_eq hfl, ← hv]
    exact of_decide_eq_true hple
  · rintro ⟨hfl, hle⟩
    have hkey : f ∈ (setAll (diffVal df m fl) fl ([] : Dict String ℚ)).keys :=
      mem_keys_setAll.2 (Or.inr hfl)
    rcases Dict.mem_keys.1 hkey with ⟨v, hv⟩
    have hveq : v = diffVal df m fl f := hcons (f, v) hv
    refine List.mem_map.2 ⟨(f, v), List.mem_filter.2 ⟨hv, ?_⟩, rfl⟩
    apply decide_eq_true
    rw [hveq, diffVal_eq hfl]
    exact hle

theorem calc_none_iff {df : DataFrame} {m : Int} {fl : List String} :
    calculate_feature_differences df m fl = none ↔
      ((∃ f ∈ fl, df.hasCol f = false) ∨ (fl ≠ [] ∧ df.hasCol "month" = false)) := by
  unfold calculate_feature_differences
  cases havg : buildAvg df fl [] with
  | none =>
    have hsome := @buildAvg_isSome df fl []
    rw [havg] at hsome
    simp only [Option.isSome_none] at hsome
    have : ¬ (fl.all df.hasCol = true) := by rw [← hsome]; simp
    rw [List.all_eq_true] at this
    push_neg at this
    rcases this with ⟨f, hfmem, hfcol⟩
    simp only [Option.bind_eq_bind, Option.none_bind]
    constructor
    · intro _
      exact Or.inl ⟨f, hfmem, Bool.eq_false_iff.2 hfcol⟩
    · intro _
      trivial
  | some avg =>
    cases hmon : buildMonthly df m fl [] with
    | none =>
      have hsome := @buildMonthly_isSome df m fl []
      rw [hmon] at hsome
      simp only [Option.isSome_none] at hsome
      have hs := hsome.symm
      rw [Bool.or_eq_false_iff, Bool.and_eq_false_iff] at hs
      rcases hs with ⟨hne, hcase⟩
      have havgs := @buildAvg_isSome df fl []
      rw [havg] at havgs
      simp only [Option.isSome_some] at havgs
      rcases hcase with hmonth | hall
      · simp only [Option.bind_eq_bind, Option.some_bind, Option.none_bind]
        constructor
        · intro _
          refine Or.inr ⟨?_, hmonth⟩
          intro hnil
          rw [hnil] at hne
          exact absurd rfl (Bool.eq_false_iff.1 hne)
        · intro _
          trivial
      · rw [← havgs] at hall
        exact absurd hall (by simp)
    | some mon =>
      simp only [Option.bind_eq_bind, Option.some_bind]
      constructor
      · intro hc
        cases hc
      · intro hc
        rcases hc with ⟨f, hfmem, hfcol⟩ | ⟨hne, hmonth⟩
        · have havgs := @buildAvg_isSome df fl []
          rw [havg] at havgs
          simp only [Option.isSome_some] at havgs
          have : df.hasCol f = true := List.all_eq_true.1 havgs.symm f hfmem
          rw [this] at hfcol
          cases hfcol
        · have hmons := @buildMonthly_isSome df m fl []
          rw [hmon] at hmons
          simp only [Option.isSome_some] at hmons
          have hs := hmons.symm
          rw [Bool.or_eq_true_iff] at hs
          rcases hs with hemp | hand
          · exact absurd (List.isEmpty_iff.1 hemp) hne
          · rw [Bool.and_eq_true_iff] at hand
            rw [hand.1] at hmonth
            cases hmonth

/-! ## Stable-sort lemmas -/

section SortLemmas

variable {α : Type} {before : α → α → Bool}

theorem insertStable_perm (a : α) (l : List α) :
    (insertStable before a l).Perm (a :: l) := by
  induction l with
  | nil => exact List.Perm.refl _
  | cons b l ih =>
    rw [insertStable]
    split
    · exact (ih.cons b).trans (List.Perm.swap a b l)
    · exact List.Perm.refl _

theorem stableSortBy_perm (l : List α) : (stableSortBy before l).Perm l := by
  induction l with
  | nil => exact List.Perm.refl _
  | cons a l ih =>
    rw [stableSortBy]
    exact (insertStable_perm a (stableSortBy before l)).trans (ih.cons a)

theorem insertStable_pairwise {R : α → α → Prop} (htr : Transitive R)
    (hT : ∀ x y, before x y = true → R x y)
    (hF : ∀ x y, before x y = false → R y x)
    (a : α) {l : List α} (hl : l.Pairwise R) :
    (insertStable before a l).Pairwise R := by
  induction l with
  | nil => exact List.pairwise_singleton R a
  | cons b l ih =>
    rcases List.pairwise_cons.1 hl with ⟨hb, hl'⟩
    rw [insertStable]
    by_cases h1 : before b a = true
    · rw [if_pos h1]
      refine List.pairwise_cons.2 ⟨?_, ih hl'⟩
      intro x hx
      have hx' : x ∈ a :: l := (insertStable_perm a l).mem_iff.1 hx
      rcases List.mem_cons.1 hx' with rfl | hx''
      · exact hT _ _ h1
      · exact hb x hx''
    · rw [if_neg h1]
      refine List.pairwise_cons.2 ⟨?_, hl⟩
      intro x hx
      have hab : R a b := hF b a (Bool.eq_false_iff.2 h1)
      rcases List.mem_cons.1 hx with rfl | hx'
      · exact hab
      · exact htr hab (hb x hx')

theorem stableSortBy_pairwise {R : α → α → Prop} (htr : Transitive R)
    (hT : ∀ x y, before x y = true → R x y)
    (hF : ∀ x y, before x y = false → R y x)
    (l : List α) : (stableSortBy before l).Pairwise R := by
  induction l with
  | nil => exact List.Pairwise.nil
  | cons a l ih =>
    rw [stableSortBy]
    exact insertStable_pairwise htr hT hF a ih

theorem filter_insertStable (pv : α → Bool) (a : α) (l : List α)
    (h : ∀ b, before b a = true → pv b = true → pv a = false) :
    (insertStable before a l).filter pv = (a :: l).filter pv := by
  induction l with
  | nil => rfl
  | cons b l ih =>
    rw [insertStable]
    by_cases hba : before b a = true
    · rw [if_pos hba]
      by_cases hpb : pv b = true
      · have hpa : pv a = false := h b hba hpb
        simp [List.filter_cons, hpb, hpa, ih]
      · have hpb' : pv b = false := Bool.eq_false_iff.2 hpb
        simp [List.filter_cons, hpb', ih]
    · rw [if_neg hba]

theorem filter_stableSortBy (pv : α → Bool) (l : List α)
    (h : ∀ a b, before b a = true → pv b = true → pv a = false) :
    (stableSortBy before l).filter pv = l.filter pv := by
  induction l with
  | nil => rfl
  | cons a l ih =>
    rw [stableSortBy, filter_insertStable pv a _ (fun b hb hpb => h a b hb hpb)]
    simp only [List.filter_cons, ih]

end SortLemmas

/-! ## Row-permutation invariance -/

theorem hasCol_congr {df df' : DataFrame} (hc : df.cols = df'.cols) (c : String) :
    df.hasCol c = df'.hasCol c := by
  unfold DataFrame.hasCol
  rw [hc]

theorem meanOf_perm {df df' : DataFrame} (hr : df.rows.Perm df'.rows) (c : String) :
    df.meanOf c = df'.meanOf c := by
  unfold DataFrame.meanOf DataFrame.colVals seriesMean
  rw [(hr.map (fun r => r c)).sum_eq, (hr.map (fun r => r c)).length_eq]

theorem windowSum_perm {df df' : DataFrame} (hr : df.rows.Perm df'.rows)
    (m : Int) (c : String) : df.windowSum m c = df'.windowSum m c := by
  unfold DataFrame.windowSum DataFrame.windowRows
  exact (((hr.filter (inWindow m)).map (fun r => r c)).sum_eq)

theorem buildAvg_congr {df df' : DataFrame} (hc : df.cols = df'.cols)
    (hr : df.rows.Perm df'.rows) :
    ∀ fl d, buildAvg df fl d = buildAvg df' fl d := by
  intro fl
  induction fl with
  | nil => intro d; rfl
  | cons f rest ih =>
    intro d
    rw [buildAvg, buildAvg, hasCol_congr hc f, meanOf_perm hr f]
    by_cases hf : df'.hasCol f = true
    · rw [if_pos hf, if_pos hf, ih]
    · rw [if_neg hf, if_neg hf]

theorem buildMonthly_congr {df df' : DataFrame} (hc : df.cols = df'.cols)
    (hr : df.rows.Perm df'.rows) (m : Int) :
    ∀ fl d, buildMonthly df m fl d = buildMonthly df' m fl d := by
  intro fl
  induction fl with
  | nil => intro d; rfl
  | cons f rest ih =>
    intro d
    rw [buildMonthly, buildMonthly, hasCol_congr hc "month", hasCol_congr hc f,
      windowSum_perm hr m f]
    by_cases hm : df'.hasCol "month" = true
    · by_cases hf : df'.hasCol f = true
      · rw [if_pos hm, if_pos hm, if_pos hf, if_pos hf, ih]
      · rw [if_pos hm, if_pos hm, if_neg hf, if_neg hf]
    · rw [if_neg hm, if_neg hm]

theorem calc_congr {df df' : DataFrame} (hc : df.cols = df'.cols)
    (hr : df.rows.Perm df'.rows) (m : Int) (fl : List String) :
    calculate_feature_differences df m fl = calculate_feature_differences df' m fl := by
  unfold calculate_feature_differences
  rw [buildAvg_congr hc hr, buildMonthly_congr hc hr]

/-! ## All-months-mode lemmas -/

theorem pyInt_mono {q q' : ℚ} (h : q ≤ q') : pyInt q ≤ pyInt q' := by
  unfold pyInt
  by_cases h0 : (0 : ℚ) ≤ q
  · rw [if_pos h0, if_pos (le_trans h0 h)]
    exact Int.floor_le_floor h
  · rw [if_neg h0]
    by_cases h1 : (0 : ℚ) ≤ q'
    · rw [if_pos h1]
      have hq : q ≤ 0 := le_of_lt (lt_of_not_le h0)
      have hceil : ⌈q⌉ ≤ 0 := Int.ceil_le.2 (by exact_mod_cast hq)
      exact le_trans hceil (Int.floor_nonneg.2 h1)
    · rw [if_neg h1]
      exact Int.ceil_le_ceil h

theorem mem_monthsSortedUnique {df : DataFrame} {q : ℚ} :
    q ∈ df.monthsSortedUnique ↔ q ∈ df.rows.map (fun r => r "month") := by
  unfold DataFrame.monthsSortedUnique
  rw [(stableSortBy_perm _).mem_iff, List.mem_dedup]

theorem monthsSortedUnique_sorted (df : DataFrame) :
    df.monthsSortedUnique.Pairwise (· ≤ ·) := by
  unfold DataFrame.monthsSortedUnique
  refine stableSortBy_pairwise ?_ ?_ ?_ _
  · exact fun a b c hab hbc => le_trans hab hbc
  · intro x y hxy
    exact le_of_lt (of_decide_eq_true hxy)
  · intro x y hxy
    exact le_of_not_lt (of_decide_eq_false hxy)

theorem allMonthsLoop_mem_keys {data : List Entry} {df : DataFrame}
    {ms : List ℚ} {res : Dict Int (List Entry)} {k : Int} :
    ∀ {acc : Dict Int (List Entry)},
      allMonthsLoop data df ms acc = some res →
      (k ∈ res.keys ↔ k ∈ acc.keys ∨ ∃ q ∈ ms, pyInt q = k) := by
  induction ms with
  | nil =>
    intro acc h
    have : acc = res := Option.some_injective _ h
    subst this
    simp
  | cons m ms ih =>
    intro acc h
    rw [allMonthsLoop] at h
    cases hre : ReACT_Extractor data df (pyInt m) with
    | none => rw [hre] at h; cases h
    | some r =>
      rw [hre] at h
      rw [ih h, Dict.mem_keys_set]
      constructor
      · rintro ((hk | rfl) | ⟨q, hq, rfl⟩)
        · exact Or.inl hk
        · exact Or.inr ⟨m, List.mem_cons_self _ _, rfl⟩
        · exact Or.inr ⟨q, List.mem_cons_of_mem _ hq, rfl⟩
      · rintro (hk | ⟨q, hq, rfl⟩)
        · exact Or.inl (Or.inl hk)
        · rcases List.mem_cons.1 hq with rfl | hq'
          · exact Or.inl (Or.inr rfl)
          · exact Or.inr ⟨q, hq', rfl⟩

theorem allMonthsLoop_values {data : List Entry} {df : DataFrame}
    {ms : List ℚ} {res : Dict Int (List Entry)} :
    ∀ {acc : Dict Int (List Entry)},
      allMonthsLoop data df ms acc = some res →
      (∀ p ∈ acc, ReACT_Extractor data df p.1 = some p.2) →
      ∀ p ∈ res, ReACT_Extractor data df p.1 = some p.2 := by
  induction ms with
  | nil =>
    intro acc h hacc
    have : acc = res := Option.some_injective _ h
    subst this
    exact hacc
  | cons m ms ih =>
    intro acc h hacc
    rw [allMonthsLoop] at h
    cases hre : ReACT_Extractor data df (pyInt m) with
    | none => rw [hre] at h; cases h
    | some r =>
      rw [hre] at h
      refine ih h ?_
      intro p hp
      rcases Dict.mem_set hp with hp' | rfl
      · exact hacc p hp'
      · exact hre

theorem allMonthsLoop_keys_sorted {data : List Entry} {df : DataFrame}
    {ms : List ℚ} {res : Dict Int (List Entry)} :
    ∀ {acc : Dict Int (List Entry)},
      allMonthsLoop data df ms acc = some res →
      ms.Pairwise (· ≤ ·) →
      acc.keys.Pairwise (· < ·) →
      (∀ k ∈ acc.keys, ∀ q ∈ ms, k ≤ pyInt q) →
      res.keys.Pairwise (· < ·) := by
  induction ms with
  | nil =>
    intro acc h _ hsorted _
    have : acc = res := Option.some_injective _ h
    subst this
    exact hsorted
  | cons m ms ih =>
    intro acc h hms hsorted hbound
    rw [allMonthsLoop] at h
    cases hre : ReACT_Extractor data df (pyInt m) with
    | none => rw [hre] at h; cases h
    | some r =>
      rw [hre] at h
      rcases List.pairwise_cons.1 hms with ⟨hm_le, hms'⟩
      by_cases hk : pyInt m ∈ acc.keys
      · refine ih h hms' ?_ ?_
        · rw [Dict.keys_set_of_mem r hk]
          exact hsorted
        · rw [Dict.keys_set_of_mem r hk]
          intro k hkmem q hq
          exact hbound k hkmem q (List.mem_cons_of_mem _ hq)
      · refine ih h hms' ?_ ?_
        · rw [Dict.keys_set_of_not_mem r hk]
          rw [List.pairwise_append]
          refine ⟨hsorted, List.pairwise_singleton _ _, ?_⟩
          intro a ha b hb
          rw [List.mem_singleton] at hb
          subst hb
          have hle : a ≤ pyInt m := hbound a ha m (List.mem_cons_self _ _)
          have hne : a ≠ pyInt m := fun he => hk (he ▸ ha)
          exact lt_of_le_of_ne hle hne
        · rw [Dict.keys_set_of_not_mem r hk]
          intro k hkmem q hq
          rcases List.mem_append.1 hkmem with hkm | hkm
          · exact hbound k hkm q (List.mem_cons_of_mem _ hq)
          · rw [List.mem_singleton] at hkm
            subst hkm
            exact pyInt_mono (hm_le q hq)

/-! ## Evaluation helpers -/

theorem Dict.set_eq_append {κ α : Type} [DecidableEq κ] {d : Dict κ α} {k : κ} (v : α)
    (h : k ∉ d.keys) : d.set k v = d ++ [(k, v)] := by
  unfold Dict.set
  rw [if_neg (fun hc => h (Dict.any_key_eq.1 hc))]

theorem setAll_eq_map {κ α : Type} [DecidableEq κ] (val : κ → α) :
    ∀ (ks : List κ) (d : Dict κ α), ks.Nodup → (∀ k ∈ ks, k ∉ d.keys) →
      setAll val ks d = d ++ ks.map (fun k => (k, val k)) := by
  intro ks
  induction ks with
  | nil => intro d _ _; simp [setAll]
  | cons k ks ih =>
    intro d hnd hout
    rw [setAll, Dict.set_eq_append (val k) (hout k (List.mem_cons_self _ _))]
    rw [ih _ (List.nodup_cons.1 hnd).2 ?_]
    · simp
    · intro k' hk'
      unfold Dict.keys
      rw [List.map_append]
      intro hmem
      rcases List.mem_append.1 hmem with hmem | hmem
      · exact hout k' (List.mem_cons_of_mem _ hk') hmem
      · simp only [List.map_cons, List.map_nil, List.mem_singleton] at hmem
        exact (List.nodup_cons.1 hnd).1 (hmem ▸ hk')

theorem calc_all_trigger {df : DataFrame} {m : Int} {fl : List String}
    (hm : df.hasCol "month" = true) (hf : ∀ f ∈ fl, df.hasCol f = true)
    (hnd : fl.Nodup) (hall : ∀ f ∈ fl, df.windowSum m f - df.meanOf f ≤ 0) :
    calculate_feature_differences df m fl = some fl := by
  rw [calc_eq hm hf]
  congr 1
  rw [setAll_eq_map _ fl [] hnd (by intro k _ hmem; cases hmem)]
  rw [List.nil_append]
  rw [List.filter_eq_self.2 ?_]
  · rw [List.map_map]
    exact List.map_id _
  · intro p hp
    rcases List.mem_map.1 hp with ⟨k, hk, rfl⟩
    apply decide_eq_true
    rw [diffVal_eq hk]
    exact hall k hk

theorem calc_no_trigger {df : DataFrame} {m : Int} {fl : List String}
    (hm : df.hasCol "month" = true) (hf : ∀ f ∈ fl, df.hasCol f = true)
    (hall : ∀ f ∈ fl, 0 < df.windowSum m f - df.meanOf f) :
    calculate_feature_differences df m fl = some [] := by
  rw [calc_eq hm hf]
  congr 1
  have hfil : (setAll (diffVal df m fl) fl ([] : Dict String ℚ)).filter
      (fun p => decide (p.2 ≤ 0)) = [] := by
    rw [List.filter_eq_nil]
    intro p hp
    have hcons : Dict.Consistent (diffVal df m fl)
        (setAll (diffVal df m fl) fl ([] : Dict String ℚ)) :=
      consistent_setAll Dict.consistent_nil
    have hkey : p.1 ∈ fl := by
      have hmem : p.1 ∈ (setAll (diffVal df m fl) fl ([] : Dict String ℚ)).keys :=
        List.mem_map.2 ⟨p, hp, rfl⟩
      rcases mem_keys_setAll.1 hmem with hc | hc
      · cases hc
      · exact hc
    have hv : p.2 = diffVal df m fl p.1 := hcons p hp
    intro hdec
    have hle : p.2 ≤ 0 := of_decide_eq_true hdec
    rw [hv, diffVal_eq hkey] at hle
    exact absurd hle (not_le.2 (hall p.1 hkey))
  rw [hfil]
  rfl

theorem calc_some_cols {df : DataFrame} {m : Int} {fl : List String} {r : List String}
    (h : calculate_feature_differences df m fl = some r) :
    (∀ f ∈ fl, df.hasCol f = true) ∧ (fl = [] ∨ df.hasCol "month" = true) := by
  have hne : calculate_feature_differences df m fl ≠ none := by
    rw [h]
    exact Option.some_ne_none r
  constructor
  · intro f hfm
    cases hcol : df.hasCol f with
    | false => exact absurd (calc_none_iff.2 (Or.inl ⟨f, hfm, hcol⟩)) hne
    | true => rfl
  · cases hcol : df.hasCol "month" with
    | false =>
      by_cases hnil : fl = []
      · exact Or.inl hnil
      · exact absurd (calc_none_iff.2 (Or.inr ⟨hnil, hcol⟩)) hne
    | true => exact Or.inr rfl

theorem ReACT_eq {original : List Entry} {df : DataFrame} {m : Int} {pf : List String}
    (hc : calculate_feature_differences df m feature_list = some pf) :
    ReACT_Extractor original df m =
      some (sortByImportanceDesc (filter_json_by_features original pf)) := by
  unfold ReACT_Extractor
  rw [hc]
  rfl

theorem windowSum_singleton (cols : List String) (row : Row) (m : Int) (f : String)
    (hwin : inWindow m row = true) :
    (DataFrame.mk cols [row]).windowSum m f = row f := by
  unfold DataFrame.windowSum DataFrame.windowRows
  simp [List.filter_cons, hwin]

theorem windowSum_singleton_none (cols : List String) (row : Row) (m : Int) (f : String)
    (hwin : inWindow m row = false) :
    (DataFrame.mk cols [row]).windowSum m f = 0 := by
  unfold DataFrame.windowSum DataFrame.windowRows
  simp [List.filter_cons, hwin]

theorem meanOf_singleton (cols : List String) (row : Row) (f : String) :
    (DataFrame.mk cols [row]).meanOf f = row f := by
  unfold DataFrame.meanOf DataFrame.colVals seriesMean
  simp

theorem dfOne_calc : calculate_feature_differences dfOne 9 feature_list = some feature_list := by
  apply calc_all_trigger (by decide) (by decide) (by decide)
  intro f _
  unfold dfOne
  rw [windowSum_singleton _ _ _ _ (by decide), meanOf_singleton, sub_self]

theorem dfFar_calc : calculate_feature_differences dfFar 3 feature_list = some feature_list := by
  apply calc_all_trigger (by decide) (by decide) (by decide)
  intro f _
  unfold dfFar
  rw [windowSum_singleton_none _ _ _ _ (by decide), meanOf_singleton]
  show (0 : ℚ) - 5 ≤ 0
  rw [zero_sub]
  exact neg_nonpos.2 (by decide)

theorem dfAll_calc : calculate_feature_differences dfAll 9 feature_list = some feature_list := by
  apply calc_all_trigger (by decide) (by decide) (by decide)
  intro f _
  unfold dfAll
  rw [windowSum_singleton _ _ _ _ (by decide), meanOf_singleton, sub_self]

theorem dfNeg_pos : ∀ f ∈ feature_list, 0 < dfNeg.windowSum 3 f - dfNeg.meanOf f := by
  intro f _
  unfold dfNeg
  rw [windowSum_singleton_none _ _ _ _ (by decide), meanOf_singleton]
  show (0 : ℚ) < 0 - (-1)
  rw [zero_sub, neg_neg]
  exact zero_lt_one

theorem dfNeg_calc : calculate_feature_differences dfNeg 3 feature_list = some [] :=
  calc_no_trigger (by decide) (by decide) dfNeg_pos

theorem ReACT_orig0 : ReACT_Extractor orig0 dfOne 9 = some [eTop, eTagged, eTie] := by
  rw [ReACT_eq dfOne_calc]
  decide

theorem allMonthsLoop_cons (data : List Entry) (df : DataFrame) (m : ℚ) (ms : List ℚ)
    (acc : Dict Int (List Entry)) (r : List Entry)
    (h : ReACT_Extractor data df (pyInt m) = some r) :
    allMonthsLoop data df (m :: ms) acc = allMonthsLoop data df ms (acc.set (pyInt m) r) := by
  have hstep : allMonthsLoop data df (m :: ms) acc =
      (match ReACT_Extractor data df (pyInt m) with
       | none => none
       | some r => allMonthsLoop data df ms (acc.set (pyInt m) r)) := rfl
  rw [hstep, h]

theorem allMonths_dfAll : allMonthsResults [eTop] dfAll = some [(9, [eTop])] := by
  unfold allMonthsResults
  rw [if_pos (by decide)]
  have hmsu : dfAll.monthsSortedUnique = [9] := by decide
  rw [hmsu]
  have h9 : pyInt (9 : ℚ) = 9 := by decide
  have hR : ReACT_Extractor [eTop] dfAll (pyInt (9 : ℚ)) = some [eTop] := by
    rw [h9, ReACT_eq dfAll_calc]
    decide
  rw [allMonthsLoop_cons _ _ _ _ _ _ hR, h9]
  decide

/-! ## Claim theorems -/

/-- C1: for every table containing a `month` column and a column for each
name in `feature_names` (and at least one row, so the all-rows mean is
defined), and every integer month, `calculate_feature_differences` returns
exactly those features whose window sum over `[month_n-2, month_n]` minus
the mean over all rows is less than or equal to zero. -/
theorem calc_returns_nonpositive_difference_features (df : DataFrame) (m : Int)
    (fl : List String) (hm : df.hasCol "month" = true)
    (hf : ∀ f ∈ fl, df.hasCol f = true) (hne : df.rows ≠ []) :
    ∃ r, calculate_feature_differences df m fl = some r ∧
      ∀ f, (f ∈ r ↔ f ∈ fl ∧ df.windowSum m f - df.meanOf f ≤ 0) :=
  ⟨_, calc_eq hm hf, calc_mem_iff hm hf (calc_eq hm hf)⟩

/-- Witness for C1 at the spec's own worked example (one row, month 9,
value 5 everywhere: every difference is zero). -/
theorem calc_returns_nonpositive_difference_features_w :
    dfOne.hasCol "month" = true ∧ (∀ f ∈ feature_list, dfOne.hasCol f = true) ∧
      dfOne.rows ≠ [] ∧
      (∃ r, calculate_feature_differences dfOne 9 feature_list = some r ∧
        ∀ f, (f ∈ r ↔ f ∈ feature_list ∧ dfOne.windowSum 9 f - dfOne.meanOf f ≤ 0)) :=
  ⟨by decide, by decide, by simp [dfOne],
   calc_returns_nonpositive_difference_features dfOne 9 feature_list (by decide)
     (by decide) (by simp [dfOne])⟩

/-- C2 counterexample: with the triggered set `{""}`, the code keeps an
entry that has no `Features` key, although the claim's reading ("treated as
having an empty feature set") predicts it is dropped: the defaulted string
`""` splits into the single empty token, not into no tokens. -/
theorem filter_keeps_featureless_entry_cex :
    filter_json_by_features [eBare] [""] = [eBare] ∧
      specFeatureTokens eBare = [] ∧
      ¬ ∃ t ∈ specFeatureTokens eBare, t ∈ ([""] : List String) := by
  refine ⟨by decide, by decide, ?_⟩
  rintro ⟨t, ht, _⟩
  rw [show specFeatureTokens eBare = [] from by decide] at ht
  cases ht

/-- C2 amended: an entry is kept iff at least one of its `Features` tokens
(the comma-split substrings of `entry.get("Features", "")`, each stripped
of surrounding whitespace; a missing `Features` key defaults to the empty
string, which splits into the single empty token) is a member of the
triggered set — an exact membership test, not a substring match. -/
theorem filter_mem_iff_token_match (data : List Entry) (features : List String)
    (e : Entry) :
    e ∈ filter_json_by_features data features ↔
      e ∈ data ∧ ∃ f ∈ features, f ∈ e.featureTokens := by
  unfold filter_json_by_features
  rw [List.mem_filter]
  constructor
  · rintro ⟨hd, hany⟩
    rcases List.any_eq_true.1 hany with ⟨f, hfm, hfc⟩
    exact ⟨hd, f, hfm, List.mem_of_elem_eq_true hfc⟩
  · rintro ⟨hd, f, hfm, hfc⟩
    exact ⟨hd, List.any_eq_true.2 ⟨f, hfm, List.elem_eq_true_of_mem hfc⟩⟩

/-- C3: entries in the result of `ReACT_Extractor` are in non-increasing
`Importance` order (missing `Importance` read as 0), and entries of equal
importance keep the relative order of the kept subset (the sort is
stable): filtering the output to one importance value gives exactly the
same list as filtering the kept subset in its original order. -/
theorem extractor_sorted_desc_stable (original : List Entry) (df : DataFrame)
    (m : Int) (out : List Entry) (v : ℚ)
    (h : ReACT_Extractor original df m = some out) :
    out.Pairwise (fun a b => b.importance ≤ a.importance) ∧
    ∃ pf, calculate_feature_differences df m feature_list = some pf ∧
      out.filter (fun e => decide (e.importance = v)) =
        (filter_json_by_features original pf).filter
          (fun e => decide (e.importance = v)) := by
  unfold ReACT_Extractor at h
  cases hc : calculate_feature_differences df m feature_list with
  | none =>
    rw [hc] at h
    simp only [Option.bind_eq_bind, Option.none_bind] at h
    exact Option.noConfusion h
  | some pf =>
    rw [hc] at h
    simp only [Option.bind_eq_bind, Option.some_bind] at h
    have hout : out = sortByImportanceDesc (filter_json_by_features original pf) :=
      (Option.some_injective _ h).symm
    subst hout
    constructor
    · apply stableSortBy_pairwise
      · intro a b c hab hbc
        exact le_trans hbc hab
      · intro x y hxy
        exact le_of_lt (of_decide_eq_true hxy)
      · intro x y hxy
        exact le_of_not_lt (of_decide_eq_false hxy)
    · refine ⟨pf, rfl, ?_⟩
      apply filter_stableSortBy
      intro a b hba hpb
      have hlt : a.importance < b.importance := of_decide_eq_true hba
      have hbv : b.importance = v := of_decide_eq_true hpb
      apply decide_eq_false
      intro hav
      rw [hav, ← hbv] at hlt
      exact lt_irrefl _ hlt

/-- Witness for C3: importances 7, 3, 3 with a tie; the tied entries keep
their original relative order. -/
theorem extractor_sorted_desc_stable_w :
    ReACT_Extractor orig0 dfOne 9 = some [eTop, eTagged, eTie] ∧
      ([eTop, eTagged, eTie].Pairwise
          (fun a b => Entry.importance b ≤ Entry.importance a) ∧
        ∃ pf, calculate_feature_differences dfOne 9 feature_list = some pf ∧
          [eTop, eTagged, eTie].filter (fun e => decide (e.importance = 3)) =
            (filter_json_by_features orig0 pf).filter
              (fun e => decide (e.importance = 3))) :=
  ⟨ReACT_orig0,
   extractor_sorted_desc_stable orig0 dfOne 9 [eTop, eTagged, eTie] 3 ReACT_orig0⟩

/-- C4: the triggered features computed for the hard-coded tracked list are
a subset of that list, and the tracked list is the fixed six-name
constant. -/
theorem extractor_triggered_subset_tracked (df : DataFrame) (m : Int)
    (r : List String)
    (h : calculate_feature_differences df m feature_list = some r) :
    r ⊆ feature_list ∧
      feature_list = ["s_avg_clustering_coef", "t_num_dev_nodes",
        "t_num_dev_per_file", "t_graph_density", "st_num_dev", "t_net_overlap"] := by
  refine ⟨?_, rfl⟩
  rcases calc_some_cols h with ⟨hf, hm'⟩
  have hm : df.hasCol "month" = true := by
    rcases hm' with hnil | hm
    · exact absurd hnil (by decide)
    · exact hm
  intro f hfr
  exact ((calc_mem_iff hm hf h f).1 hfr).1

/-- Witness for C4. -/
theorem extractor_triggered_subset_tracked_w :
    calculate_feature_differences dfOne 9 feature_list = some feature_list ∧
      (feature_list ⊆ feature_list ∧
        feature_list = ["s_avg_clustering_coef", "t_num_dev_nodes",
          "t_num_dev_per_file", "t_graph_density", "st_num_dev", "t_net_overlap"]) :=
  ⟨dfOne_calc, extractor_triggered_subset_tracked dfOne 9 feature_list dfOne_calc⟩

/-- C5: when every tracked feature's difference is strictly positive, the
evaluator returns the empty triggered set and the selector keeps nothing. -/
theorem all_positive_differences_empty_result (data : List Entry) (df : DataFrame)
    (m : Int) (r : List String)
    (h : calculate_feature_differences df m feature_list = some r)
    (hpos : ∀ f ∈ feature_list, 0 < df.windowSum m f - df.meanOf f) :
    r = [] ∧ filter_json_by_features data r = [] := by
  rcases calc_some_cols h with ⟨hf, hm'⟩
  have hm : df.hasCol "month" = true := by
    rcases hm' with hnil | hm
    · exact absurd hnil (by decide)
    · exact hm
  have hr : r = [] := by
    rw [calc_no_trigger hm hf hpos] at h
    exact (Option.some_injective _ h).symm
  subst hr
  refine ⟨rfl, ?_⟩
  unfold filter_json_by_features
  rw [List.filter_eq_nil]
  intro e _
  simp

/-- Witness for C5: one row with month -1 (outside the window for month 3)
and every feature value -1, so each difference is 0 - (-1) = 1 > 0. -/
theorem all_positive_differences_empty_result_w :
    calculate_feature_differences dfNeg 3 feature_list = some [] ∧
      (∀ f ∈ feature_list, 0 < dfNeg.windowSum 3 f - dfNeg.meanOf f) ∧
      (([] : List String) = [] ∧ filter_json_by_features [eTagged] [] = []) :=
  ⟨dfNeg_calc, dfNeg_pos,
   all_positive_differences_empty_result [eTagged] dfNeg 3 [] dfNeg_calc dfNeg_pos⟩

/-- C6: for a non-empty table with no row in the window `[month_n-2,
month_n]`, the evaluator computes a window sum of zero for each feature and
compares it as-is (no special-case branch), so any feature whose all-rows
mean is non-negative is returned as triggered. -/
theorem empty_window_zero_sum_triggers (df : DataFrame) (m : Int)
    (fl : List String) (r : List String) (f : String) (hne : df.rows ≠ [])
    (hwin : ∀ row ∈ df.rows, inWindow m row = false)
    (h : calculate_feature_differences df m fl = some r) (hf : f ∈ fl) :
    df.windowSum m f = 0 ∧ (0 ≤ df.meanOf f → f ∈ r) := by
  have hwr : df.windowRows m = [] := by
    unfold DataFrame.windowRows
    rw [List.filter_eq_nil]
    intro row hrow hcontra
    rw [hwin row hrow] at hcontra
    cases hcontra
  have hws : df.windowSum m f = 0 := by
    unfold DataFrame.windowSum
    rw [hwr]
    rfl
  refine ⟨hws, ?_⟩
  intro hmean
  rcases calc_some_cols h with ⟨hcols, hm'⟩
  have hm : df.hasCol "month" = true := by
    rcases hm' with hnil | hm
    · rw [hnil] at hf
      cases hf
    · exact hm
  apply (calc_mem_iff hm hcols h f).2
  refine ⟨hf, ?_⟩
  rw [hws, zero_sub]
  exact neg_nonpos.2 hmean

/-- Witness for C6: one row with month 5 (outside the window for month 3)
and feature values 5, whose means are non-negative. -/
theorem empty_window_zero_sum_triggers_w :
    dfFar.rows ≠ [] ∧ (∀ row ∈ dfFar.rows, inWindow 3 row = false) ∧
      "st_num_dev" ∈ feature_list ∧
      (dfFar.windowSum 3 "st_num_dev" = 0 ∧
        (0 ≤ dfFar.meanOf "st_num_dev" → "st_num_dev" ∈ feature_list)) :=
  ⟨by simp [dfFar], by decide, by decide,
   empty_window_zero_sum_triggers dfFar 3 feature_list feature_list "st_num_dev"
     (by simp [dfFar]) (by decide) dfFar_calc (by decide)⟩

/-- C7: in all-months mode, the produced mapping's key set is exactly the
set of distinct `month` values cast to integers, the keys appear in
strictly ascending order (the months are iterated ascending), and each
month maps to exactly the single-month pipeline result for it. -/
theorem all_months_mapping_spec (data : List Entry) (df : DataFrame)
    (res : Dict Int (List Entry)) (k : Int)
    (h : allMonthsResults data df = some res) :
    ((∃ v, (k, v) ∈ res) ↔ ∃ q ∈ df.rows.map (fun r => r "month"), pyInt q = k) ∧
    (∀ p ∈ res, ReACT_Extractor data df p.1 = some p.2) ∧
    res.keys.Pairwise (fun a b => a < b) := by
  unfold allMonthsResults at h
  by_cases hm : df.hasCol "month" = true
  · rw [if_pos hm] at h
    refine ⟨?_, ?_, ?_⟩
    · rw [← Dict.mem_keys, allMonthsLoop_mem_keys h]
      simp only [Dict.keys, List.map_nil, List.not_mem_nil, false_or]
      constructor
      · rintro ⟨q, hq, rfl⟩
        exact ⟨q, mem_monthsSortedUnique.1 hq, rfl⟩
      · rintro ⟨q, hq, rfl⟩
        exact ⟨q, mem_monthsSortedUnique.2 hq, rfl⟩
    · refine allMonthsLoop_values h ?_
      intro p hp
      cases hp
    · refine allMonthsLoop_keys_sorted h (monthsSortedUnique_sorted df)
        List.Pairwise.nil ?_
      intro k' hk'
      cases hk'
  · rw [if_neg hm] at h
    exact Option.noConfusion h

/-- Witness for C7 on a one-row table whose single month is 9. -/
theorem all_months_mapping_spec_w :
    allMonthsResults [eTop] dfAll = some [(9, [eTop])] ∧
      (((∃ v, ((9 : Int), v) ∈ [((9 : Int), [eTop])]) ↔
          ∃ q ∈ dfAll.rows.map (fun r => r "month"), pyInt q = 9) ∧
        (∀ p ∈ [((9 : Int), [eTop])], ReACT_Extractor [eTop] dfAll p.1 = some p.2) ∧
        (Dict.keys ([((9 : Int), [eTop])] : Dict Int (List Entry))).Pairwise
          (fun a b => a < b)) :=
  ⟨allMonths_dfAll,
   all_months_mapping_spec [eTop] dfAll [(9, [eTop])] 9 allMonths_dfAll⟩

/-- C8: the result of `ReACT_Extractor` is obtained purely by filtering and
reordering the original entries: it is a permutation of a sublist of the
input collection, each kept record the original record itself (the
embedding is pure, so the inputs are never mutated). -/
theorem extractor_result_subperm (original : List Entry) (df : DataFrame)
    (m : Int) (out : List Entry)
    (h : ReACT_Extractor original df m = some out) :
    out.Subperm original := by
  unfold ReACT_Extractor at h
  cases hc : calculate_feature_differences df m feature_list with
  | none =>
    rw [hc] at h
    simp only [Option.bind_eq_bind, Option.none_bind] at h
    exact Option.noConfusion h
  | some pf =>
    rw [hc] at h
    simp only [Option.bind_eq_bind, Option.some_bind] at h
    have hout : out = sortByImportanceDesc (filter_json_by_features original pf) :=
      (Option.some_injective _ h).symm
    subst hout
    refine ⟨filter_json_by_features original pf, ?_, ?_⟩
    · exact (stableSortBy_perm _).symm
    · unfold filter_json_by_features
      exact List.filter_sublist _

/-- Witness for C8. -/
theorem extractor_result_subperm_w :
    ReACT_Extractor orig0 dfOne 9 = some [eTop, eTagged, eTie] ∧
      List.Subperm [eTop, eTagged, eTie] orig0 :=
  ⟨ReACT_orig0, extractor_result_subperm orig0 dfOne 9 _ ReACT_orig0⟩

/-- C9 counterexample: with an empty feature list, the `month` column is
never accessed, so the call succeeds on a table with no `month` column —
the claim's "fails if `month` is absent" direction is false there. -/
theorem calc_succeeds_without_month_cex :
    calculate_feature_differences ⟨[], []⟩ 9 [] = some [] ∧
      (DataFrame.mk [] []).hasCol "month" = false :=
  ⟨rfl, rfl⟩

/-- C9 amended: `calculate_feature_differences` fails with a lookup error
iff some named feature column is absent, or the feature list is non-empty
and the `month` column is absent; when those columns are present (or the
feature list is empty) it completes without error. -/
theorem calc_error_iff_missing_column (df : DataFrame) (m : Int)
    (fl : List String) :
    calculate_feature_differences df m fl = none ↔
      ((∃ f ∈ fl, df.hasCol f = false) ∨ (fl ≠ [] ∧ df.hasCol "month" = false)) :=
  calc_none_iff

/-- C10: the evaluator is invariant under permutation of the table's rows —
the triggered list is identical in membership and order (its order follows
`feature_list`, not the rows), since the mean and window sum are
row-order-independent. -/
theorem calc_row_permutation_invariant (df dfB : DataFrame) (m : Int)
    (fl : List String) (hc : df.cols = dfB.cols) (hr : df.rows.Perm dfB.rows) :
    calculate_feature_differences df m fl = calculate_feature_differences dfB m fl :=
  calc_congr hc hr m fl

/-- Witness for C10: the three-row table with its first two rows swapped. -/
theorem calc_row_permutation_invariant_w :
    dfPos.cols = dfPosSwapped.cols ∧ dfPos.rows.Perm dfPosSwapped.rows ∧
      calculate_feature_differences dfPos 3 feature_list =
        calculate_feature_differences dfPosSwapped 3 feature_list := by
  have hperm : dfPos.rows.Perm dfPosSwapped.rows := by
    unfold dfPos dfPosSwapped
    exact List.Perm.swap _ _ _
  exact ⟨rfl, hperm,
    calc_row_permutation_invariant dfPos dfPosSwapped 3 feature_list rfl hperm⟩
